import Mathlib

/-!
Verification of the ProductList editor plugin (src/index.js).

Strings are modelled as lists of Unicode code points (`List Nat`), the view
JavaScript has of its strings character by character.  Every definition below
is translated from the source file; definitions whose doc comment says
"as the claim states it" follow the wording of the specification instead and
are only used to compare the code against that wording.
-/

/-- A JavaScript string, as its list of code points. -/
abbrev JStr := List Nat

/-- Code points of a Lean string literal, for concrete inputs. -/
def js (s : String) : JStr := s.toList.map Char.toNat

/-- One selectable item of the configured catalog (`acList` entries in
src/index.js): a url and a title. -/
structure CatalogEntry where
  url : JStr
  title : JStr
deriving DecidableEq

/-- Per-character step of `replaceFullWidthCharactersWithHalfWidth`
(src/index.js lines 290-294): a code point in U+FF01..U+FF5E is shifted down
by 0xFEE0, anything else is returned unchanged. -/
def fwToHalf (c : Nat) : Nat :=
  if 0xFF01 ≤ c ∧ c ≤ 0xFF5E then c - 0xFEE0 else c

/-- src/index.js lines 290-294: the regex replace maps every character of the
class [！-～] through the shift by 0xFEE0 and keeps the rest. -/
def replaceFullWidthCharactersWithHalfWidth (s : JStr) : JStr :=
  s.map fwToHalf

/-- Per-character model of the JavaScript `toLowerCase` builtin on the
ranges this plugin can be affected by (Basic Latin and Fullwidth Latin
uppercase letters go to the corresponding lowercase letters, 0x20 higher);
all other code points are returned unchanged. -/
def toLowerCode (c : Nat) : Nat :=
  if 0x41 ≤ c ∧ c ≤ 0x5A then c + 0x20
  else if 0xFF21 ≤ c ∧ c ≤ 0xFF3A then c + 0x20
  else c

/-- Model of `String.prototype.toLowerCase`, applied code point by code
point. -/
def toLowerStr (s : JStr) : JStr :=
  s.map toLowerCode

/-- Model of `String.prototype.startsWith hay needle`. -/
def startsWith : JStr → JStr → Bool
  | _, [] => true
  | [], _ :: _ => false
  | c :: cs, d :: ds => c == d && startsWith cs ds

/-- Model of `String.prototype.includes hay needle`: true when `needle`
occurs contiguously inside `hay`. -/
def includesStr : JStr → JStr → Bool
  | [], needle => needle.isEmpty
  | c :: rest, needle => startsWith (c :: rest) needle || includesStr rest needle

/-- src/index.js lines 325-337: lower-case and width-normalize the filter
text; an empty filter shows the whole catalog (`makeProductsList` is called
on `this.config.acList`), otherwise the catalog is filtered by an
`includes` test on the lower-cased, width-normalized titles.  The function
returns the list handed to `makeProductsList`. -/
def filterProductsList (acList : List CatalogEntry) (filterText : JStr) :
    List CatalogEntry :=
  let text := replaceFullWidthCharactersWithHalfWidth (toLowerStr filterText)
  if text = [] then acList
  else acList.filter fun product =>
    includesStr (replaceFullWidthCharactersWithHalfWidth (toLowerStr product.title)) text

/-- Normalization as the claim states it: full-width-to-half-width first,
then lower-casing (the source applies the two in the opposite order). -/
def specNormalize (s : JStr) : JStr :=
  toLowerStr (replaceFullWidthCharactersWithHalfWidth s)

theorem fwToHalf_toLowerCode_comm (c : Nat) :
    fwToHalf (toLowerCode c) = toLowerCode (fwToHalf c) := by
  unfold fwToHalf toLowerCode
  split_ifs <;> omega

theorem specNormalize_eq (s : JStr) :
    specNormalize s = replaceFullWidthCharactersWithHalfWidth (toLowerStr s) := by
  unfold specNormalize replaceFullWidthCharactersWithHalfWidth toLowerStr
  induction s with
  | nil => rfl
  | cons c rest ih =>
    simp only [List.map_cons, List.map_map] at *
    rw [ih.symm]
    simp [Function.comp, fwToHalf_toLowerCode_comm]

theorem startsWith_iff (hay needle : JStr) :
    startsWith hay needle = true ↔ ∃ post, hay = needle ++ post := by
  induction needle generalizing hay with
  | nil => simp [startsWith]
  | cons d ds ih =>
    cases hay with
    | nil =>
      simp [startsWith]
    | cons c cs =>
      simp only [startsWith, Bool.and_eq_true, beq_iff_eq, ih, List.cons_append,
        List.cons.injEq]
      constructor
      · rintro ⟨rfl, post, rfl⟩
        exact ⟨post, rfl, rfl⟩
      · rintro ⟨post, rfl, rfl⟩
        exact ⟨rfl, post, rfl⟩

theorem includesStr_iff (hay needle : JStr) :
    includesStr hay needle = true ↔ ∃ pre post, hay = pre ++ needle ++ post := by
  induction hay with
  | nil =>
    simp only [includesStr, List.isEmpty_iff]
    constructor
    · rintro rfl
      exact ⟨[], [], rfl⟩
    · rintro ⟨pre, post, h⟩
      rcases List.append_eq_nil.mp (List.append_eq_nil.mp h.symm).1 with ⟨-, h2⟩
      exact h2
  | cons c cs ih =>
    simp only [includesStr, Bool.or_eq_true, startsWith_iff, ih]
    constructor
    · rintro (⟨post, h⟩ | ⟨pre, post, rfl⟩)
      · exact ⟨[], post, by simpa using h⟩
      · exact ⟨c :: pre, post, rfl⟩
    · rintro ⟨pre, post, h⟩
      cases pre with
      | nil => exact Or.inl ⟨post, by simpa using h⟩
      | cons p ps =>
        simp only [List.cons_append, List.cons.injEq] at h
        exact Or.inr ⟨ps, post, h.2⟩

theorem includesStr_nil (hay : JStr) : includesStr hay [] = true := by
  cases hay <;> simp [includesStr, startsWith]

/-- C1.  For every catalog list and every filter string, `filterProductsList`
selects exactly the catalog entries whose title, width-normalized and
lower-cased, contains the likewise normalized filter string as a contiguous
substring, in the catalog's original order (it is a `List.filter` of the
catalog); and for the empty filter string it selects the full catalog. -/
theorem C1_filterProductsList (acList : List CatalogEntry) (filterText : JStr) :
    filterProductsList acList filterText
      = acList.filter (fun product =>
          includesStr (specNormalize product.title) (specNormalize filterText)) ∧
    filterProductsList acList [] = acList := by
  constructor
  · unfold filterProductsList
    by_cases h : replaceFullWidthCharactersWithHalfWidth (toLowerStr filterText) = []
    · simp only [h, if_pos rfl]
      have hft : filterText = [] := by
        have := congrArg List.length h
        simpa [replaceFullWidthCharactersWithHalfWidth, toLowerStr] using this
      subst hft
      have : ∀ p : CatalogEntry,
          includesStr (specNormalize p.title) (specNormalize []) = true := by
        intro p
        simpa [specNormalize, replaceFullWidthCharactersWithHalfWidth, toLowerStr]
          using includesStr_nil (specNormalize p.title)
      exact (List.filter_eq_self.mpr fun a _ => this a).symm
    · simp only [if_neg h]
      apply List.filter_congr
      intro p _
      rw [specNormalize_eq, specNormalize_eq]
  · simp [filterProductsList, replaceFullWidthCharactersWithHalfWidth, toLowerStr]

/-- C10.  `replaceFullWidthCharactersWithHalfWidth` keeps the length, maps
every code point of U+FF01..U+FF5E to the point 0xFEE0 lower (an ASCII
point in 0x21..0x7E), leaves every other code point unchanged, and applying
it twice equals applying it once. -/
theorem C10_replaceFullWidth (s : JStr) :
    (replaceFullWidthCharactersWithHalfWidth s).length = s.length ∧
    (∀ i (h : i < s.length) (h2 : i < (replaceFullWidthCharactersWithHalfWidth s).length),
      (0xFF01 ≤ s.get ⟨i, h⟩ ∧ s.get ⟨i, h⟩ ≤ 0xFF5E →
        (replaceFullWidthCharactersWithHalfWidth s).get ⟨i, h2⟩
            = s.get ⟨i, h⟩ - 0xFEE0 ∧
        0x21 ≤ (replaceFullWidthCharactersWithHalfWidth s).get ⟨i, h2⟩ ∧
        (replaceFullWidthCharactersWithHalfWidth s).get ⟨i, h2⟩ ≤ 0x7E) ∧
      (¬(0xFF01 ≤ s.get ⟨i, h⟩ ∧ s.get ⟨i, h⟩ ≤ 0xFF5E) →
        (replaceFullWidthCharactersWithHalfWidth s).get ⟨i, h2⟩ = s.get ⟨i, h⟩)) ∧
    replaceFullWidthCharactersWithHalfWidth (replaceFullWidthCharactersWithHalfWidth s)
      = replaceFullWidthCharactersWithHalfWidth s := by
  refine ⟨by simp [replaceFullWidthCharactersWithHalfWidth], ?_, ?_⟩
  · intro i h h2
    have hget : (replaceFullWidthCharactersWithHalfWidth s).get ⟨i, h2⟩
        = fwToHalf (s.get ⟨i, h⟩) := by
      simp [replaceFullWidthCharactersWithHalfWidth]
    constructor
    · intro hc
      rw [hget]
      unfold fwToHalf
      rw [if_pos hc]
      omega
    · intro hc
      rw [hget]
      unfold fwToHalf
      rw [if_neg hc]
  · unfold replaceFullWidthCharactersWithHalfWidth
    rw [List.map_map]
    apply List.map_congr_left
    intro c _
    simp only [Function.comp]
    unfold fwToHalf
    split_ifs <;> omega

/-- The metadata object a fetch can return (the typedef at the top of
src/index.js plus the extra keys showLinkPreview reads); a `none` field is
an absent key, read as undefined. -/
structure MetaData where
  link : Option JStr := none
  image : Option JStr := none
  title : Option JStr := none
  description : Option JStr := none
  lowest_price_gross : Option JStr := none
  operating_days_of_week : Option JStr := none
deriving DecidableEq

/-- The JavaScript values that flow through the data setter and the fetch
callback: null/undefined, a string, or a metadata object. -/
inductive JSVal where
  | nullv
  | strv (s : JStr)
  | objv (m : MetaData)
deriving DecidableEq

/-- JavaScript truthiness on `JSVal`: null and the empty string are falsy,
every object (the empty object included) is truthy. -/
def truthy : JSVal → Bool
  | .nullv => false
  | .strv s => !s.isEmpty
  | .objv _ => true

/-- Reading `value.link`: on null or undefined the property access throws
(`none`); a string has no such key (undefined); an object yields its field. -/
def getLinkProp : JSVal → Option (Option JStr)
  | .nullv => none
  | .strv _ => some none
  | .objv m => some m.link

/-- The stored `_data` of the tool (src/index.js lines 102-105): a link and
the fetched meta value, initialized to the empty string and an empty
object. -/
structure ToolData where
  link : JStr := []
  meta : JSVal := .objv {}
deriving DecidableEq

/-- The data setter (src/index.js lines 172-177).  The assigned object may
lack either field (`none` = absent, read as undefined); a falsy link (absent
or empty) keeps the stored link and a falsy meta (absent, null or empty
string) keeps the stored meta, following the two `||` defaults. -/
def setDataImpl (old : ToolData) (linkField : Option JStr)
    (metaField : Option JSVal) : ToolData :=
  { link := match linkField with
      | some s => if s.isEmpty then old.link else s
      | none => old.link
    meta := match metaField with
      | some v => if truthy v then v else old.meta
      | none => old.meta }

/-- The three localized messages handed to api.i18n.t in src/index.js. -/
inductive Msg where
  | couldNotFetchTheLinkData
  | couldNotGetThisLinkData
  | wrongResponseFormatFromServer
deriving DecidableEq

/-- The observable state a fetch cycle touches: the stored data, the
notifier messages shown so far (in order), the error class on the input
holder, whether the select dropdown was removed, the progress indicator, and
the meta value a rendered preview was built from (if one was). -/
structure State where
  data : ToolData := {}
  notifications : List Msg := []
  inputError : Bool := false
  selectRemoved : Bool := false
  progressLoading : Bool := false
  progressLoaded : Bool := false
  inputHolderRemoved : Bool := false
  preview : Option JSVal := none
deriving DecidableEq

/-- src/index.js lines 547-554: show the message through the host notifier
with the error style, add the error class to the input holder and remove the
select element. -/
def fetchingFailed (st : State) (m : Msg) : State :=
  { st with
    notifications := st.notifications ++ [m]
    inputError := true
    selectRemoved := true }

/-- The fetch callback onFetch (src/index.js lines 511-538).  A status code
of at least 400 reports the fixed message and returns; otherwise the
response is committed through the data setter (reading `response.link`
throws on a null response, modelled by `Except.error`), a falsy response
then reports the wrong-format message, and a truthy one hides the progress
bar, removes the input holder and renders the preview. -/
def onFetch (st : State) (response : JSVal) (code : Nat) : Except Unit State :=
  if 400 ≤ code then
    .ok (fetchingFailed st .couldNotGetThisLinkData)
  else
    match getLinkProp response with
    | none => .error ()
    | some linkProp =>
      let link := match linkProp with
        | some s => if s.isEmpty then st.data.link else s
        | none => st.data.link
      let st := { st with data := setDataImpl st.data (some link) (some response) }
      if !truthy response then
        .ok (fetchingFailed st .wrongResponseFormatFromServer)
      else
        .ok { st with
          progressLoading := false
          progressLoaded := true
          inputHolderRemoved := true
          preview := some response }

/-- The result the awaited ajax.get settles with: a `{ body, code }` pair,
or a rejected request. -/
inductive FetchResult where
  | success (body : JSVal) (code : Nat)
  | failure
deriving DecidableEq

/-- The part of fetchLinkData that runs before the network request
(src/index.js lines 487-489): show the progress bar and assign
`{ link: url }` through the data setter (no meta field). -/
def fetchLinkDataPre (st : State) (url : JStr) : State :=
  let st1 := { st with progressLoading := true }
  { st1 with data := setDataImpl st1.data (some url) none }

/-- fetchLinkData (src/index.js lines 487-503) for a settled request: the
pre-request step, then onFetch on the response; a rejected request, and any
exception onFetch raises, lands in the catch block which reports the fixed
transport-failure message. -/
def fetchLinkData (st : State) (url : JStr) (result : FetchResult) : State :=
  let st := fetchLinkDataPre st url
  match result with
  | .failure => fetchingFailed st .couldNotFetchTheLinkData
  | .success body code =>
    match onFetch st body code with
    | .ok st2 => st2
    | .error _ => fetchingFailed st .couldNotFetchTheLinkData

/-- Code points the JavaScript `trim` builtin strips: the WhiteSpace and
LineTerminator sets. -/
def isJsWhitespace (c : Nat) : Bool :=
  c == 0x9 || c == 0xA || c == 0xB || c == 0xC || c == 0xD || c == 0x20 ||
  c == 0xA0 || c == 0x1680 || (0x2000 ≤ c && c ≤ 0x200A) || c == 0x2028 ||
  c == 0x2029 || c == 0x202F || c == 0x205F || c == 0x3000 || c == 0xFEFF

/-- Model of `String.prototype.trim`: strip leading and trailing whitespace. -/
def trimStr (s : JStr) : JStr :=
  ((s.dropWhile isJsWhitespace).reverse.dropWhile isJsWhitespace).reverse

/-- validate (src/index.js lines 163-165): true exactly when the stored
link, trimmed, is not the empty string. -/
def validate (d : ToolData) : Bool :=
  !(trimStr d.link).isEmpty

/-- The construction input `config` (src/index.js line 69): each recognized
key may be absent (`none`).  The placeholder option is read from the key
placeHolder. -/
structure RawConfig where
  endpoint : Option JStr := none
  headers : Option (List (JStr × JStr)) := none
  acList : Option (List CatalogEntry) := none
  placeHolder : Option JStr := none
  language : Option JStr := none
deriving DecidableEq

/-- A normalized acList: the `config.acList || {}` default is an empty
object literal, distinct from a supplied array (an empty object has no map
method, an empty array does). -/
inductive ObjOrList where
  | emptyObj
  | list (l : List CatalogEntry)
deriving DecidableEq

/-- A normalized placeholder: the `config.placeHolder || {}` default is an
empty object literal, distinct from a supplied non-empty string. -/
inductive ObjOrStr where
  | emptyObj
  | str (s : JStr)
deriving DecidableEq

/-- The normalized `this.config` (src/index.js lines 76-82). -/
structure Config where
  endpoint : JStr
  headers : List (JStr × JStr)
  acList : ObjOrList
  placeholder : ObjOrStr
  language : JStr
deriving DecidableEq

/-- The `value || dflt` pattern on an optional string: an absent or empty
value falls back to the default. -/
def jsOrStr (v : Option JStr) (dflt : JStr) : JStr :=
  match v with
  | some s => if s.isEmpty then dflt else s
  | none => dflt

/-- The constructor of src/index.js lines 76-82: endpoint and language
default to the empty string, headers to an empty mapping, while acList and
placeholder fall back to the empty object literal `{}` (placeholder also
does so for a supplied empty string, which is falsy). -/
def normalizeConfig (c : RawConfig) : Config :=
  { endpoint := jsOrStr c.endpoint []
    headers := c.headers.getD []
    acList := match c.acList with
      | some l => .list l
      | none => .emptyObj
    placeholder := match c.placeHolder with
      | some s => if s.isEmpty then .emptyObj else .str s
      | none => .emptyObj
    language := jsOrStr c.language [] }

/-- The argument object fetchLinkData hands to ajax.get (src/index.js lines
492-496): the request url, the header set and the `url` query parameter. -/
structure AjaxRequest where
  url : JStr
  requestHeaders : Option (List (JStr × JStr))
  dataUrl : JStr
deriving DecidableEq

/-- The expression `this.headers` in fetchLinkData (src/index.js line 494):
the class never assigns a headers property on the instance (the constructor
stores the headers under `this.config.headers`), so this property access
yields undefined. -/
def instanceHeaders : Option (List (JStr × JStr)) := none

/-- The single GET request fetchLinkData issues (src/index.js lines
492-496): url is `this.config.endpoint`, headers is `this.headers` and the
data carries the selected url under the key url. -/
def fetchRequest (cfg : Config) (url : JStr) : AjaxRequest :=
  { url := cfg.endpoint
    requestHeaders := instanceHeaders
    dataUrl := url }

/-- The yen glyph 円, U+5186. -/
def yen : Nat := 0x5186

/-- The Japanese locale tag the price formatting compares against. -/
def jaJP : JStr := js "ja-JP"

/-- Model of `price.replace(yen, empty)` with a plain string pattern
(src/index.js line 428): only the first occurrence is removed. -/
def replaceFirstYen : JStr → JStr
  | [] => []
  | c :: rest => if c == yen then rest else c :: replaceFirstYen rest

/-- The price text showLinkPreview renders (src/index.js lines 420-433):
outside the ja-JP locale, a price containing the yen glyph is shown as
JPY plus the price with its first yen glyph removed; otherwise the price
string is shown verbatim. -/
def renderPriceText (language price : JStr) : JStr :=
  if language ≠ jaJP then
    if yen ∈ price then js "JPY " ++ replaceFirstYen price else price
  else price

/-- Price rendering as the claim states it: verbatim under ja-JP or with no
yen glyph present, otherwise JPY prepended to the price with the yen glyph
removed (every occurrence, read literally). -/
def claimPriceText (language price : JStr) : JStr :=
  if language = jaJP ∨ yen ∉ price then price
  else js "JPY " ++ price.filter (fun c => !(c == yen))

/-- C5.  validate is true exactly when the stored link with surrounding
whitespace trimmed is non-empty; in particular it is false for the empty
link and for a blanks-only link, and true for a real url. -/
theorem C5_validate (d : ToolData) :
    (validate d = true ↔ trimStr d.link ≠ []) ∧
    validate { link := js "" } = false ∧
    validate { link := js "   " } = false ∧
    validate { link := js "http://x" } = true := by
  refine ⟨?_, by decide, by decide, by decide⟩
  simp [validate, List.isEmpty_iff]

/-- C9.  Through the data setter, an absent or empty link field keeps the
stored link, an absent, null or empty-string meta field keeps the stored
meta, and a non-empty stored link can never become the empty string. -/
theorem C9_setData (old : ToolData) (linkField : Option JStr)
    (metaField : Option JSVal) :
    (setDataImpl old none metaField).link = old.link ∧
    (setDataImpl old (some []) metaField).link = old.link ∧
    (setDataImpl old linkField none).meta = old.meta ∧
    (setDataImpl old linkField (some .nullv)).meta = old.meta ∧
    (setDataImpl old linkField (some (.strv []))).meta = old.meta ∧
    (old.link ≠ [] → (setDataImpl old linkField metaField).link ≠ []) := by
  refine ⟨by simp [setDataImpl], by simp [setDataImpl], by simp [setDataImpl],
    by simp [setDataImpl, truthy], by simp [setDataImpl, truthy], ?_⟩
  intro h
  unfold setDataImpl
  cases linkField with
  | none => simpa using h
  | some s =>
    by_cases hs : s.isEmpty
    · simpa [hs] using h
    · have hsne : s ≠ [] := by simpa [List.isEmpty_iff] using hs
      simpa [hs] using hsne

/-- The state the worked examples of the specification start from: an
optimistically stored link and an empty meta object. -/
def st0 : State := { data := { link := js "http://a", meta := .objv {} } }

/-- C2.  For a response whose status code is at least 400, the fetch cycle
leaves the stored meta unchanged, keeps only the optimistically set link,
appends exactly one could-not-get-this-link-data notification and renders
no preview. -/
theorem C2_failedStatus (st : State) (url : JStr) (body : JSVal) (code : Nat)
    (h : 400 ≤ code) :
    (fetchLinkData st url (.success body code)).data.meta = st.data.meta ∧
    (fetchLinkData st url (.success body code)).data.link
        = (if url.isEmpty then st.data.link else url) ∧
    (fetchLinkData st url (.success body code)).notifications
        = st.notifications ++ [Msg.couldNotGetThisLinkData] ∧
    (fetchLinkData st url (.success body code)).preview = st.preview := by
  simp [fetchLinkData, fetchLinkDataPre, onFetch, fetchingFailed, setDataImpl, h]

/-- C2, witnessed.  The fixed example of the specification: a 404 response
on the st0 state keeps the data and fires the error notification once. -/
theorem C2_witness :
    (fetchLinkData st0 (js "http://a") (.success (.objv {}) 404)).data.meta
        = st0.data.meta ∧
    (fetchLinkData st0 (js "http://a") (.success (.objv {}) 404)).data.link
        = (if (js "http://a").isEmpty then st0.data.link else js "http://a") ∧
    (fetchLinkData st0 (js "http://a") (.success (.objv {}) 404)).notifications
        = st0.notifications ++ [Msg.couldNotGetThisLinkData] ∧
    (fetchLinkData st0 (js "http://a") (.success (.objv {}) 404)).preview
        = st0.preview :=
  C2_failedStatus st0 (js "http://a") (.objv {}) 404 (by decide)

/-- C3, refuted as stated.  An empty object body under a 200 code is an
empty response body, yet the code commits it as metadata and renders the
preview, and no wrong-response-format notification fires. -/
theorem C3_counterexample :
    truthy (.objv {}) = true ∧
    (fetchLinkData st0 (js "http://a") (.success (.objv {}) 200)).notifications = [] ∧
    (fetchLinkData st0 (js "http://a") (.success (.objv {}) 200)).preview
        = some (.objv {}) ∧
    (fetchLinkData st0 (js "http://a") (.success (.objv {}) 200)).notifications
        ≠ st0.notifications ++ [Msg.wrongResponseFormatFromServer] := by
  decide

/-- C3, amended.  For a response with status code below 400 whose body is
falsy but not null (in practice the empty string), the fetch aborts with
exactly one wrong-response-format notification, the stored meta is
unchanged and no preview is rendered. -/
theorem C3_emptyBodyAborts (st : State) (url : JStr) (body : JSVal) (code : Nat)
    (hcode : code < 400) (hfalsy : truthy body = false) (hnotnull : body ≠ .nullv) :
    (fetchLinkData st url (.success body code)).notifications
        = st.notifications ++ [Msg.wrongResponseFormatFromServer] ∧
    (fetchLinkData st url (.success body code)).data.meta = st.data.meta ∧
    (fetchLinkData st url (.success body code)).preview = st.preview := by
  cases body with
  | nullv => exact absurd rfl hnotnull
  | objv m => simp [truthy] at hfalsy
  | strv s =>
    have hs : s = [] := by simpa [truthy] using hfalsy
    subst hs
    have h4 : ¬ 400 ≤ code := Nat.not_le.mpr hcode
    simp [fetchLinkData, fetchLinkDataPre, onFetch, getLinkProp, truthy,
      fetchingFailed, setDataImpl, h4]

/-- C3, witnessed.  An empty-string body under a 200 code on the st0 state
aborts with the wrong-response-format notification and commits nothing. -/
theorem C3_witness :
    (fetchLinkData st0 (js "http://a") (.success (.strv []) 200)).notifications
        = st0.notifications ++ [Msg.wrongResponseFormatFromServer] ∧
    (fetchLinkData st0 (js "http://a") (.success (.strv []) 200)).data.meta
        = st0.data.meta ∧
    (fetchLinkData st0 (js "http://a") (.success (.strv []) 200)).preview
        = st0.preview :=
  C3_emptyBodyAborts st0 (js "http://a") (.strv []) 200 (by decide) (by decide)
    (by decide)

/-- A normalized config with a non-empty header set, as a host would supply
for an authenticated endpoint. -/
def cfgWithAuth : Config :=
  normalizeConfig
    { endpoint := some (js "https://api.example.com/meta")
      headers := some [(js "Authorization", js "Bearer token")] }

/-- C4, evaluated at the failing input.  The single GET request targets
config.endpoint and carries the selected url as the url query parameter,
but its header set is the undefined `this.headers` (the instance never
assigns such a property), not the non-empty config.headers the constructor
normalized. -/
theorem C4_requestHeadersBug :
    (fetchRequest cfgWithAuth (js "http://a")).url = cfgWithAuth.endpoint ∧
    (fetchRequest cfgWithAuth (js "http://a")).dataUrl = js "http://a" ∧
    cfgWithAuth.headers = [(js "Authorization", js "Bearer token")] ∧
    (fetchRequest cfgWithAuth (js "http://a")).requestHeaders = none ∧
    (fetchRequest cfgWithAuth (js "http://a")).requestHeaders
        ≠ some cfgWithAuth.headers := by
  refine ⟨rfl, rfl, by decide, rfl, by decide⟩

/-- C6, refuted as stated.  On a price with two yen glyphs under a
non-Japanese locale, the code removes only the first glyph, not every
occurrence as the claim reads. -/
theorem C6_counterexample :
    renderPriceText (js "en-US") [yen, yen] = js "JPY " ++ [yen] ∧
    claimPriceText (js "en-US") [yen, yen] = js "JPY " ∧
    renderPriceText (js "en-US") [yen, yen]
        ≠ claimPriceText (js "en-US") [yen, yen] := by
  decide

theorem replaceFirstYen_spec (price : JStr) (h : yen ∈ price) :
    ∃ pre post, price = pre ++ yen :: post ∧ yen ∉ pre ∧
      replaceFirstYen price = pre ++ post := by
  induction price with
  | nil => simp at h
  | cons c rest ih =>
    by_cases hc : c = yen
    · subst hc
      exact ⟨[], rest, rfl, by simp, by simp [replaceFirstYen]⟩
    · have hmem : yen ∈ rest := by
        rcases List.mem_cons.mp h with h1 | h1
        · exact absurd h1.symm hc
        · exact h1
      obtain ⟨pre, post, hdec, hpre, hrep⟩ := ih hmem
      refine ⟨c :: pre, post, by simp [hdec], ?_, ?_⟩
      · intro hmem2
        rcases List.mem_cons.mp hmem2 with h2 | h2
        · exact hc h2.symm
        · exact hpre h2
      · simp [replaceFirstYen, hc, hrep]

/-- C6, amended.  The rendered price text equals the input verbatim when
the language is ja-JP or the price holds no yen glyph; otherwise it is
JPY prepended to the price with only the first occurrence of the glyph
removed, as the two fixed examples of the specification show. -/
theorem C6_priceText (language price : JStr) :
    (language = jaJP → renderPriceText language price = price) ∧
    (yen ∉ price → renderPriceText language price = price) ∧
    (language ≠ jaJP → yen ∈ price →
      ∃ pre post, price = pre ++ yen :: post ∧ yen ∉ pre ∧
        renderPriceText language price = js "JPY " ++ (pre ++ post)) ∧
    renderPriceText (js "en-US") (js "500円") = js "JPY 500" ∧
    renderPriceText jaJP (js "500円") = js "500円" := by
  refine ⟨?_, ?_, ?_, by decide, by decide⟩
  · intro h
    simp [renderPriceText, h]
  · intro h
    simp [renderPriceText, h]
  · intro h1 h2
    obtain ⟨pre, post, hdec, hpre, hrep⟩ := replaceFirstYen_spec price h2
    exact ⟨pre, post, hdec, hpre, by simp [renderPriceText, h1, h2, hrep]⟩

/-- C7, refuted as stated.  With every option omitted, acList and
placeholder are defaulted to the empty object literal, not to an empty
list and an empty string. -/
theorem C7_counterexample :
    (normalizeConfig {}).acList ≠ ObjOrList.list [] ∧
    (normalizeConfig {}).placeholder ≠ ObjOrStr.str [] ∧
    (normalizeConfig {}).acList = ObjOrList.emptyObj ∧
    (normalizeConfig {}).placeholder = ObjOrStr.emptyObj := by
  decide

/-- C7, amended.  Whatever the rest of the input config holds, an omitted
endpoint defaults to the empty string, omitted headers to the empty
mapping, an omitted language to the empty string, and an omitted acList or
placeholder to the empty object literal. -/
theorem C7_configDefaults (c : RawConfig) :
    (normalizeConfig { c with endpoint := none }).endpoint = [] ∧
    (normalizeConfig { c with headers := none }).headers = [] ∧
    (normalizeConfig { c with acList := none }).acList = ObjOrList.emptyObj ∧
    (normalizeConfig { c with placeHolder := none }).placeholder
        = ObjOrStr.emptyObj ∧
    (normalizeConfig { c with language := none }).language = [] :=
  ⟨rfl, rfl, rfl, rfl, rfl⟩

/-- C8, refuted as stated.  A fetch started with the empty string as the
selected url does not store that url: the falsy-guarded setter keeps the
previous link. -/
theorem C8_counterexample :
    (fetchLinkDataPre st0 []).data.link = js "http://a" ∧
    js "http://a" ≠ ([] : JStr) := by
  decide

/-- C8, amended.  Before the network request, fetchLinkData stores the
selected url as the link when that url is non-empty (an empty url keeps
the previous link) and leaves the stored meta unchanged. -/
theorem C8_optimisticLink (st : State) (url : JStr) :
    (url ≠ [] → (fetchLinkDataPre st url).data.link = url) ∧
    (url = [] → (fetchLinkDataPre st url).data.link = st.data.link) ∧
    (fetchLinkDataPre st url).data.meta = st.data.meta := by
  refine ⟨?_, ?_, by simp [fetchLinkDataPre, setDataImpl]⟩
  · intro h
    have hs : url.isEmpty = false := by simpa [List.isEmpty_iff] using h
    simp [fetchLinkDataPre, setDataImpl, hs]
  · rintro rfl
    simp [fetchLinkDataPre, setDataImpl]
